import Mathlib

/-!
Verification of the `rss-feeds-go` repository (package `rf`).

This file shallowly embeds the parts of the Go source that the verified
claims are about:

  * `client.go` — `SummarizeAndCacheFeeds`, `summarize`, `fetch`,
    `ListCachedItems`, and the age filter inside `FetchFeeds`;
  * `cache.go` / the cache implementations — `memCache` and `dbCache`
    (`Save`, `Fetch`, `List`);
  * `helpers.go` — `removeConsecutiveEmptyLines`, `redactText`,
    `redactItems`, `isTextFormattableContent`, `isFileContent`.

Go `time.Time` values are modelled as `Int` nanoseconds since an epoch;
a nil `*time.Time` is `Option Int`.  Go maps are modelled as association
lists (one entry per key), and database tables as lists of rows in
insertion order.  Effectful collaborators (HTTP, the Gemini backend, the
scrapper) are modelled as explicit oracle parameters: the embedding of a
function is parameterised by the results its external calls would return,
and the control flow around those results is translated from the source.
Go panics are made explicit with `Except`.
-/

/-! ## Data model (`cache.go`, gofeed) -/

/-- A `gofeed.Person` (`Name`, `Email`). -/
structure GofeedPerson where
  name : String
  email : String
deriving DecidableEq, Repr

/-- The fields of `gofeed.Item` used by the repository: `Title`, `Description`,
`GUID`, `Link`, `Links`, `Author` (a nullable pointer) and `PublishedParsed`
(a nullable `*time.Time`, modelled as `Option Int` nanoseconds). -/
structure GofeedItem where
  title : String
  description : String
  guid : String
  link : String
  links : List String
  author : Option GofeedPerson
  publishedParsed : Option Int
deriving DecidableEq, Repr

/-- `CachedItem` from `cache.go`: `gorm.Model` contributes `ID`, `CreatedAt`
and `UpdatedAt` (timestamps as `Int` nanoseconds). -/
structure CachedItem where
  id : Nat := 0
  createdAt : Int := 0
  updatedAt : Int := 0
  title : String := ""
  link : String := ""
  comments : String := ""
  guid : String := ""
  author : String := ""
  publishDate : String := ""
  description : String := ""
  summary : String := ""
  markedAsRead : Bool := false
deriving DecidableEq, Repr

/-- `listLimit` from `cache.go`. -/
def listLimit : Nat := 100

/-- `time.Time.Format(time.RFC3339)`, modelled abstractly as an injective
rendering of the instant; no claim inspects the text of the formatted date,
only whether the field is preserved. -/
def formatRFC3339 (t : Int) : String :=
  "RFC3339:" ++ toString t

/-! ## The cached record built by `Save` (both cache implementations)

`memCache.Save` and `dbCache.Save` build the same `CachedItem` literal from
a `gofeed.Item`: title and summary from the arguments, `GUID` and
`Description` from the item, `Link`/`Comments` from the first two entries of
`item.Links`, `Author` from `item.Author.Name` (falling back to `.Email`),
and `PublishDate` from `item.PublishedParsed` when present. -/

/-- The `Author` field written by `Save`: `item.Author.Name` when non-empty,
else `item.Author.Email` when non-empty, else left at its zero value. -/
def authorString : Option GofeedPerson → String
  | some a =>
      if a.name.length > 0 then a.name
      else if a.email.length > 0 then a.email
      else ""
  | none => ""

/-- The `CachedItem` literal built inside both `Save` implementations
(each conditional assignment of the Go code rendered as the field's value;
a field that is never assigned keeps its zero value). -/
def cachedFromItem (item : GofeedItem) (title summary : String) : CachedItem :=
  { title := title
    guid := item.guid
    description := item.description
    summary := summary
    link := if item.links.length > 0 then item.links.headD "" else ""
    comments := if item.links.length > 1 then (item.links.drop 1).headD "" else ""
    author := authorString item.author
    publishDate :=
      match item.publishedParsed with
      | some t => formatRFC3339 t
      | none => ""
    markedAsRead := false }

/-! ## memCache

The Go `map[string]CachedItem` is modelled as an association list with at
most one entry per key; `Save` replaces the entry in place or appends a new
one.  Go map iteration order is unspecified, so `List`'s output order is a
determinization (entry insertion order). -/

/-- Association-list insert-or-replace, the model of Go map assignment. -/
def mapInsert (m : List (String × CachedItem)) (k : String) (v : CachedItem) :
    List (String × CachedItem) :=
  if m.any (fun e => e.1 = k) then
    m.map (fun e => if e.1 = k then (k, v) else e)
  else m ++ [(k, v)]

/-- `memCache.Save`: builds a fresh `CachedItem` from the arguments and
assigns it to `c.items[item.GUID]`, replacing any previous entry whole. -/
def memCache.Save (m : List (String × CachedItem)) (item : GofeedItem)
    (title summary : String) : List (String × CachedItem) :=
  mapInsert m item.guid (cachedFromItem item title summary)

/-- `memCache.Fetch`: Go map lookup, `nil` when absent. -/
def memCache.Fetch (m : List (String × CachedItem)) (guid : String) :
    Option CachedItem :=
  (m.find? (fun e => e.1 = guid)).map (fun e => e.2)

/-- `memCache.List`: collects all map values and then `slices.DeleteFunc`s
the ones marked as read unless `includeItemsMarkedAsRead` is set.  There is
no ordering step and no count cap. -/
def memCache.List (m : List (String × CachedItem))
    (includeItemsMarkedAsRead : Bool) : List CachedItem :=
  let all := m.map (fun e => e.2)
  all.filter (fun v => !(if includeItemsMarkedAsRead then false else v.markedAsRead))

/-! ## dbCache

The SQLite table is a list of rows in insertion order.  `created_at` and
`updated_at` are set from a clock argument on insert.  `ORDER BY created_at
DESC` is modelled with `List.insertionSort` (a stable determinization of the
unspecified tie order).  GORM's auto-increment id is modelled as row count
+ 1; `deleted_at` soft deletion plays no role in the claims and is omitted. -/

/-- The `ORDER BY created_at DESC` relation. -/
def createdDesc (a b : CachedItem) : Prop := b.createdAt ≤ a.createdAt

instance : DecidableRel createdDesc := fun a b => by
  unfold createdDesc; infer_instance

instance : IsTotal CachedItem createdDesc :=
  ⟨fun a b => le_total b.createdAt a.createdAt⟩

instance : IsTrans CachedItem createdDesc :=
  ⟨fun _ _ _ h h' => le_trans h' h⟩

/-- `dbCache.Save`: `INSERT ... ON CONFLICT (guid) DO UPDATE SET title,
summary` — on conflict only the `title` and `summary` columns are
overwritten, otherwise a fresh row is appended with `created_at` and
`updated_at` from the clock. -/
def dbCache.Save (now : Int) (t : List CachedItem) (item : GofeedItem)
    (title summary : String) : List CachedItem :=
  if t.any (fun row => row.guid = item.guid) then
    t.map (fun row =>
      if row.guid = item.guid then { row with title := title, summary := summary }
      else row)
  else
    t ++ [{ cachedFromItem item title summary with
            id := t.length + 1, createdAt := now, updatedAt := now }]

/-- `dbCache.Fetch` as written in the source:
`c.db.Limit(1).Model(&CachedItem{}).Find(&cached).Where("guid = ?", guid)`.
`Find` executes before `Where` is chained, so the query that runs is
`SELECT * FROM cached_items LIMIT 1` with no guid filter; with no rows the
destination struct keeps its zero value and is still returned non-nil. -/
def dbCache.Fetch (t : List CachedItem) (_guid : String) : Option CachedItem :=
  some (t.headD {})

/-- `dbCache.List`: excluding read items filters on `marked_as_read` and
orders by `created_at DESC` with no limit; including them orders by
`created_at DESC` and caps the row count at `listLimit`. -/
def dbCache.List (t : List CachedItem) (includeItemsMarkedAsRead : Bool) :
    List CachedItem :=
  if !includeItemsMarkedAsRead then
    List.insertionSort createdDesc (t.filter (fun v => !v.markedAsRead))
  else
    (List.insertionSort createdDesc t).take listLimit

/-! ## helpers.go: content-type predicates and text formatting -/

/-- `strings.HasPrefix`, computed on the character lists. -/
def goHasPrefix (s p : String) : Bool :=
  p.data.isPrefixOf s.data

/-- `isTextFormattableContent` from `helpers.go`. -/
def isTextFormattableContent (contentType : String) : Bool :=
  goHasPrefix contentType "text/" || goHasPrefix contentType "application/json"

/-- `isFileContent` from `helpers.go`. -/
def isFileContent (contentType : String) : Bool :=
  goHasPrefix contentType "application/pdf"

/-- `strings.TrimRight(line, " ")` on the character list: drop trailing
space characters. -/
def trimRightSpacesCh (l : List Char) : List Char :=
  (l.reverse.dropWhile (fun c => c = ' ')).reverse

/-- `strings.Split(s, "\n")` on the character list. -/
def splitOnNL : List Char → List (List Char)
  | [] => [[]]
  | c :: cs =>
      if c = '\n' then [] :: splitOnNL cs
      else
        match splitOnNL cs with
        | l :: ls => (c :: l) :: ls
        | [] => [[c]]

/-- `strings.Join(lines, "\n")` on character lists. -/
def joinNL : List (List Char) → List Char
  | [] => []
  | [l] => l
  | l :: ls => l ++ '\n' :: joinNL ls

/-- The `"\n{2,}" → "\n"` regex replacement of `removeConsecutiveEmptyLines`
on the character list: every maximal run of newline characters is emitted as
a single newline (a run of length one is already a single newline, so
collapsing every run coincides with replacing only the runs of length ≥ 2).
The flag records whether the previous emitted character closed a newline
run. -/
def collapseNLAux : Bool → List Char → List Char
  | _, [] => []
  | prevNL, c :: rest =>
      if c = '\n' then
        if prevNL then collapseNLAux true rest
        else '\n' :: collapseNLAux true rest
      else c :: collapseNLAux false rest

/-- The newline-run collapse on a whole character list. -/
def collapseNL (cs : List Char) : List Char :=
  collapseNLAux false cs

/-- `removeConsecutiveEmptyLines` from `helpers.go`: split on `"\n"`, trim
each line's trailing spaces, re-join, then collapse newline runs. -/
def removeConsecutiveEmptyLines (input : String) : String :=
  ⟨collapseNL (joinNL ((splitOnNL input.data).map trimRightSpacesCh))⟩

/-- `urlToTextFormat` from `helpers.go`:
`"<link url=\"%[1]s\" content-type=\"%[2]s\">\n%[3]s\n</link>"`. -/
def urlToTextFormat (url contentType body : String) : String :=
  "<link url=\"" ++ url ++ "\" content-type=\"" ++ contentType ++ "\">\n"
    ++ body ++ "\n</link>"

/-- The body produced by `fetchURLContent`'s `text/*` branch (after a 200
response whose bytes read as `raw`): the raw text is run through
`removeConsecutiveEmptyLines` and wrapped in `urlToTextFormat`. -/
def fetchURLContentTextBody (url contentType raw : String) : String :=
  urlToTextFormat url contentType (removeConsecutiveEmptyLines raw)

/-! ## The age filter in `FetchFeeds` (`client.go` lines 436–443)

`slices.DeleteFunc(fetched.Items, func(item) bool {
   before := item.PublishedParsed.Before(time.Now().Add(-days * 24h)); ... })`

`PublishedParsed` is a `*time.Time`; calling `Before` on a nil pointer
panics, which the model makes explicit with `Except`. -/

/-- The predicate of the age-filter `DeleteFunc`: `.error` is the Go nil
pointer dereference panic raised when `PublishedParsed` is nil. -/
def itemTooOld (now : Int) (days : Nat) (item : GofeedItem) :
    Except String Bool :=
  match item.publishedParsed with
  | none => .error "runtime error: invalid memory address or nil pointer dereference"
  | some t => .ok (decide (t < now - (days : Int) * 24 * 3600 * 1000000000))

/-- `slices.DeleteFunc` with a predicate that can panic: elements are tested
left to right and a panic aborts the traversal. -/
def deleteFuncE (p : α → Except String Bool) : List α → Except String (List α)
  | [] => .ok []
  | x :: xs => do
    let b ← p x
    let rest ← deleteFuncE p xs
    pure (if b then rest else x :: rest)

/-- The age-filter step of `FetchFeeds`. -/
def fetchFeedsAgeFilter (now : Int) (days : Nat) (items : List GofeedItem) :
    Except String (List GofeedItem) :=
  deleteFuncE (itemTooOld now days) items

/-! ## Client.fetch (`client.go` lines 628–666)

`fetch` probes the content type, then uses the scrapper when one is given
and the content type is HTML, otherwise `fetchURLContent`; on error it
recurses while retry budget remains, and once the budget is zero it makes
one final `fetchURLContent` call whenever a scrapper was supplied.  The
outcome of the i-th elementary fetch operation is an oracle `ok i`; the
model returns the sequence of elementary attempts alongside success. -/

/-- The two elementary fetch operations of `Client.fetch`. -/
inductive FetchKind
  | scrapper
  | plain
deriving DecidableEq, Repr

/-- `maxRetryCount` from `client.go`. -/
def maxRetryCount : Nat := 3

/-- One level of `Client.fetch`: `idx` numbers the elementary fetch
operations performed so far (feeding the outcome oracle `ok`), `remaining`
is `remainingRetryCount`.  Returns the attempt trace and overall success. -/
def Client.fetch (scrapperGiven htmlContentType : Bool) (ok : Nat → Bool) :
    Nat → Nat → List FetchKind × Bool
  | idx, 0 =>
      let kind := if scrapperGiven ∧ htmlContentType then FetchKind.scrapper
                  else FetchKind.plain
      if ok idx then ([kind], true)
      else if scrapperGiven then ([kind, FetchKind.plain], ok (idx + 1))
      else ([kind], false)
  | idx, n + 1 =>
      let kind := if scrapperGiven ∧ htmlContentType then FetchKind.scrapper
                  else FetchKind.plain
      if ok idx then ([kind], true)
      else
        let rest := Client.fetch scrapperGiven htmlContentType ok (idx + 1) n
        (kind :: rest.1, rest.2)

/-- The attempt trace of `Client.fetch`. -/
def fetchAttemptTrace (scrapperGiven htmlContentType : Bool) (ok : Nat → Bool)
    (budget : Nat) : List FetchKind :=
  (Client.fetch scrapperGiven htmlContentType ok 0 budget).1

/-! ## Client.summarize (`client.go` lines 543–626)

External calls (the Gemini backend via `translateAndSummarizeYouTube`,
`translateAndSummarize`, `summarizeURL`, and `Client.fetch`) are modelled by
an environment of their results; `gt.ErrToStr` renders the message carried
by the error and `gt.IsModelOverloaded` reads its overload classification.
`isYouTubeURL` is an external URL predicate and enters the environment as a
boolean. -/

/-- A Go error as classified by the `gemini-things` helpers: its rendered
message and whether `gt.IsModelOverloaded` holds of it. -/
structure GoError where
  msg : String
  overloaded : Bool
deriving DecidableEq, Repr

/-- `ErrorPrefixSummaryFailedWithError` from `client.go`. -/
def summaryFailedMarker : String := "Summary failed with error"

/-- `summarizedContentEmpty` from `gemini.go`. -/
def summarizedContentEmpty : String := "Summarized content was empty."

/-- The results the external calls of one `summarize` invocation would
return: the YouTube-URL predicate, the structured-output generations, the
content fetch, and the URL-context generation (whose title is always the
caller's title, per `summarizeURL`). -/
structure SummarizeEnv where
  isYouTubeURL : Bool
  ytResult : Except GoError (String × String)
  fetchContent : Except GoError (String × String)
  genTextResult : Except GoError (String × String)
  genFileResult : Except GoError (String × String)
  urlContextResult : Except GoError String
deriving Repr

/-- The `(translatedTitle, summarizedContent, err)` triple returned by
`Client.summarize`. -/
structure SummarizeOut where
  translatedTitle : String
  summarizedContent : String
  err : Option GoError
deriving DecidableEq, Repr

/-- The shared failure return of `summarize` (`client.go` line 625):
`return title, fmt.Sprintf("%s: %s", ErrorPrefixSummaryFailedWithError,
gt.ErrToStr(err)), err`. -/
def summarizeFailOut (title : String) (e : GoError) : SummarizeOut :=
  ⟨title, summaryFailedMarker ++ ": " ++ e.msg, some e⟩

/-- `Client.summarize`: the YouTube path returns the generation results
as-is; the text and file paths replace an empty translated title with the
original title and empty summarized content with `summarizedContentEmpty`;
the URL-context path (taken when the content fetch fails entirely) replaces
only empty content; every failing path returns `summarizeFailOut`. -/
def Client.summarize (env : SummarizeEnv) (title : String) : SummarizeOut :=
  if env.isYouTubeURL then
    match env.ytResult with
    | .ok (t, s) => ⟨t, s, none⟩
    | .error e => summarizeFailOut title e
  else
    match env.fetchContent with
    | .ok (_, contentType) =>
        if isTextFormattableContent contentType then
          match env.genTextResult with
          | .ok (t, s) =>
              ⟨if t.length ≤ 0 then title else t,
               if s.length ≤ 0 then summarizedContentEmpty else s, none⟩
          | .error e => summarizeFailOut title e
        else if isFileContent contentType then
          match env.genFileResult with
          | .ok (t, s) =>
              ⟨if t.length ≤ 0 then title else t,
               if s.length ≤ 0 then summarizedContentEmpty else s, none⟩
          | .error e => summarizeFailOut title e
        else
          summarizeFailOut title
            ⟨"not a summarizable content type: " ++ contentType, false⟩
    | .error _ =>
        match env.urlContextResult with
        | .ok s =>
            ⟨title, if s.length ≤ 0 then summarizedContentEmpty else s, none⟩
        | .error e => summarizeFailOut title e

/-! ## Client.SummarizeAndCacheFeeds (`client.go` lines 477–541)

The per-item `summarize` call is the oracle `sumOf`.  The run is recorded
as: the `cache.Save` calls in order (item, translated title, summarized
content), the accumulated error messages, the items whose summarization was
attempted, and whether the `break outer` for an overloaded model fired. -/

/-- The observable trace of one `SummarizeAndCacheFeeds` run. -/
structure RunResult where
  saves : List (GofeedItem × String × String)
  errs : List String
  attempted : List GofeedItem
  aborted : Bool
deriving Repr

/-- The provenance footer appended to a successful summary
(`"%s\n\n(summarized with **%s**, %s)"`). -/
def summaryFooter (content modelName now : String) : String :=
  content ++ "\n\n(summarized with **" ++ modelName ++ "**, " ++ now ++ ")"

/-- The error recorded for a non-overload per-item failure
(`"failed to summarize item '%s' (%s): %w"`). -/
def itemFailErr (item : GofeedItem) (e : GoError) : String :=
  "failed to summarize item '" ++ item.title ++ "' (" ++ item.link ++ "): " ++ e.msg

/-- The `cache.Save` arguments produced for one item that was not aborted:
on success the footer is appended, on a non-overload failure the original
description is appended to the error content. -/
def saveFor (sumOf : GofeedItem → SummarizeOut) (modelName now : String)
    (item : GofeedItem) : GofeedItem × String × String :=
  let r := sumOf item
  match r.err with
  | none => (item, r.translatedTitle, summaryFooter r.summarizedContent modelName now)
  | some _ =>
      (item, r.translatedTitle, r.summarizedContent ++ "\n\n" ++ item.description)

/-- Whether an item's summarization fails with `gt.IsModelOverloaded`. -/
def overloadFail (sumOf : GofeedItem → SummarizeOut) (item : GofeedItem) : Bool :=
  match (sumOf item).err with
  | some e => e.overloaded
  | none => false

/-- The inner loop of `SummarizeAndCacheFeeds` over one feed's items. -/
def processItems (sumOf : GofeedItem → SummarizeOut) (modelName now : String) :
    List GofeedItem → RunResult
  | [] => ⟨[], [], [], false⟩
  | item :: rest =>
      let r := sumOf item
      match r.err with
      | none =>
          let tail := processItems sumOf modelName now rest
          ⟨saveFor sumOf modelName now item :: tail.saves, tail.errs,
           item :: tail.attempted, tail.aborted⟩
      | some e =>
          if e.overloaded then
            ⟨[], [e.msg], [item], true⟩
          else
            let tail := processItems sumOf modelName now rest
            ⟨saveFor sumOf modelName now item :: tail.saves,
             itemFailErr item e :: tail.errs, item :: tail.attempted, tail.aborted⟩

/-- The outer loop of `SummarizeAndCacheFeeds` over all feeds; `break outer`
stops the remaining feeds as well. -/
def processFeeds (sumOf : GofeedItem → SummarizeOut) (modelName now : String) :
    List (List GofeedItem) → RunResult
  | [] => ⟨[], [], [], false⟩
  | f :: fs =>
      let r := processItems sumOf modelName now f
      if r.aborted then r
      else
        let rest := processFeeds sumOf modelName now fs
        ⟨r.saves ++ rest.saves, r.errs ++ rest.errs,
         r.attempted ++ rest.attempted, rest.aborted⟩

/-- `Client.SummarizeAndCacheFeeds`: the run trace together with the
returned error — `nil` when no error accumulated, otherwise
`errors.Join(errs...)` (messages joined by newlines). -/
def Client.SummarizeAndCacheFeeds (sumOf : GofeedItem → SummarizeOut)
    (modelName now : String) (feeds : List (List GofeedItem)) :
    RunResult × Option String :=
  let r := processFeeds sumOf modelName now feeds
  (r, if r.errs.isEmpty then none else some (String.intercalate "\n" r.errs))

/-! ## Redaction (`helpers.go` `redactText`/`redactItems`,
`client.go` `ListCachedItems`) -/

/-- The `redacted` marker from `helpers.go`. -/
def redactedMarker : String := "|REDACTED|"

/-- Core of `strings.ReplaceAll` for a non-empty pattern: leftmost,
non-overlapping replacement.  The fuel argument (always at least the length
of the remaining text, and at least one fuel unit is spent per character
consumed) makes the recursion structural; with a non-empty pattern the
out-of-fuel branch is never reached. -/
def replaceAllCore (k r : List Char) : Nat → List Char → List Char
  | _, [] => []
  | 0, s => s
  | fuel + 1, c :: cs =>
      if k.isPrefixOf (c :: cs) ∧ k ≠ [] then
        r ++ replaceAllCore k r fuel ((c :: cs).drop k.length)
      else
        c :: replaceAllCore k r fuel cs

/-- `strings.ReplaceAll(s, k, r)`: an empty pattern matches before every
character and at the end. -/
def goReplaceAll (s k r : String) : String :=
  if k.data = [] then
    ⟨r.data ++ s.data.flatMap (fun c => c :: r.data)⟩
  else
    ⟨replaceAllCore k.data r.data s.data.length s.data⟩

/-- `redactText` from `helpers.go`: replace every baddie in order. -/
def redactText (text : String) (baddies : List String) : String :=
  baddies.foldl (fun t baddy => goReplaceAll t baddy redactedMarker) text

/-- `redactItems` from `helpers.go`: rewrite each non-empty summary through
`redactText`, leaving every other field alone. -/
def redactItems (items : List CachedItem) (baddies : List String) :
    List CachedItem :=
  items.map (fun item =>
    if item.summary.length > 0 then { item with summary := redactText item.summary baddies }
    else item)

/-- `Client.ListCachedItems`: the cache's `List` output run through
`redactItems` with the configured API keys (`cacheListing` stands for
`c.cache.List(includeItemsMarkedAsRead)`, produced by either cache
implementation). -/
def Client.ListCachedItems (cacheListing : List CachedItem)
    (googleAIAPIKeys : List String) : List CachedItem :=
  redactItems cacheListing googleAIAPIKeys

/-! # Claims -/

/-! ## C2 — the fetch fallback chain -/

/-- The all-attempts-fail trace of `Client.fetch` with a scrapper supplied
and an HTML content type: the initial call and every retry level use the
scrapper (the budget-zero level included), then one final plain fetch. -/
theorem fetch_allFail_trace (budget idx : Nat) :
    (Client.fetch true true (fun _ => false) idx budget).1 =
      List.replicate (budget + 1) FetchKind.scrapper ++ [FetchKind.plain] := by
  induction budget generalizing idx with
  | zero => simp [Client.fetch]
  | succ n ih =>
      simp [Client.fetch, ih, List.replicate_succ]

/-- Claim C2 counterexample: with a scrapper supplied and retry budget 2,
when every attempt fails the attempt sequence is scrapper, scrapper,
scrapper, plain-fetch — not the claimed scrapper, scrapper, plain-fetch:
the scrapper is still used for the primary attempt of the budget-zero
level before the final plain fetch. -/
theorem C2_counterexample :
    fetchAttemptTrace true true (fun _ => false) 2 =
        [FetchKind.scrapper, FetchKind.scrapper, FetchKind.scrapper, FetchKind.plain] ∧
      fetchAttemptTrace true true (fun _ => false) 2 ≠
        [FetchKind.scrapper, FetchKind.scrapper, FetchKind.plain] := by
  constructor
  · rfl
  · intro h
    simp [fetchAttemptTrace, Client.fetch] at h

/-- Claim C2 (amended): for every retry budget, when every attempt fails
with a scrapper supplied and an HTML content type, the attempt sequence is
budget + 1 scrapper attempts followed by exactly one plain fetch; in
particular the final attempt never uses the scrapper (budget 2 gives
scrapper, scrapper, scrapper, plain). -/
theorem C2_fetch_fallback_chain (budget : Nat) :
    fetchAttemptTrace true true (fun _ => false) budget =
        List.replicate (budget + 1) FetchKind.scrapper ++ [FetchKind.plain] ∧
      (fetchAttemptTrace true true (fun _ => false) budget).getLast? =
        some FetchKind.plain := by
  refine ⟨fetch_allFail_trace budget 0, ?_⟩
  rw [fetchAttemptTrace, fetch_allFail_trace budget 0]
  simp

/-! ## C3 — the age filter and nil publish timestamps -/

/-- Claim C3 (code behaviour at the claimed inputs): an item published 10
days ago is discarded under a 7-day window while one published 1 day ago is
kept, but an item with no parseable publish timestamp makes the filtering
step dereference a nil `*time.Time` and panic instead of keeping the item. -/
theorem C3_age_filter_nil_panics :
    fetchFeedsAgeFilter 0 7
        [{ title := "old", description := "", guid := "o", link := "",
           links := [], author := none,
           publishedParsed := some (-10 * 24 * 3600 * 1000000000) },
         { title := "new", description := "", guid := "n", link := "",
           links := [], author := none,
           publishedParsed := some (-1 * 24 * 3600 * 1000000000) }] =
        .ok [{ title := "new", description := "", guid := "n", link := "",
               links := [], author := none,
               publishedParsed := some (-1 * 24 * 3600 * 1000000000) }] ∧
      fetchFeedsAgeFilter 0 7
        [{ title := "no date", description := "", guid := "x", link := "",
           links := [], author := none, publishedParsed := none }] =
        .error "runtime error: invalid memory address or nil pointer dereference" := by
  constructor <;> rfl

/-! ## C7 — Fetch by GUID -/

/-- Claim C7 (code behaviour at the failing input): the in-memory `Fetch`
looks the GUID up, but the DB-backed `Fetch` — whose `Where` is chained
after `Find` has already run — returns the table's first row for a GUID
that is not stored, and a zero-value record instead of nil on an empty
table. -/
theorem C7_dbFetch_ignores_guid :
    memCache.Fetch [("a", { guid := "a", title := "A" })] "b" = none ∧
      dbCache.Fetch [{ guid := "a", title := "A" }] "b" =
        some { guid := "a", title := "A" } ∧
      ({ guid := "a", title := "A" } : CachedItem).guid ≠ "b" ∧
      dbCache.Fetch [] "b" = some {} := by
  refine ⟨rfl, rfl, ?_, rfl⟩
  decide

/-! ## C6 — List windowing -/

/-- A memCache state holding 150 items, none marked as read. -/
def memWith150 : List (String × CachedItem) :=
  (List.range 150).map (fun n => (toString n, { guid := toString n }))

/-- Claim C6 counterexample: the in-memory `List(includeItemsMarkedAsRead =
true)` has no cap — on a cache of 150 items it returns all 150, not at most
100. -/
theorem C6_counterexample :
    (memCache.List memWith150 true).length = 150 ∧
      ¬ (memCache.List memWith150 true).length ≤ 100 := by
  have h : (memCache.List memWith150 true).length = 150 := by
    simp [memCache.List, memWith150]
  exact ⟨h, by omega⟩

/-- Claim C6 (amended): the DB-backed `List` returns at most 100 items
newest-first (by creation time) when read items are included, and all items
not marked as read, newest-first with no cap, when they are excluded; the
in-memory `List` applies only the read-flag filter — with read items
included it returns every cached item, however many there are, in no
guaranteed order. -/
theorem C6_list_windowing (t : List CachedItem) (m : List (String × CachedItem)) :
    (dbCache.List t true).length ≤ 100 ∧
      List.Sorted createdDesc (dbCache.List t true) ∧
      List.Sorted createdDesc (dbCache.List t false) ∧
      (dbCache.List t false).Perm (t.filter (fun v => !v.markedAsRead)) ∧
      memCache.List m true = m.map (fun e => e.2) ∧
      memCache.List m false =
        (m.map (fun e => e.2)).filter (fun v => !v.markedAsRead) := by
  refine ⟨?_, ?_, ?_, ?_, ?_, ?_⟩
  · calc (dbCache.List t true).length
        ≤ listLimit := by
          simp only [dbCache.List, Bool.not_true, Bool.false_eq_true, if_false]
          exact List.length_take_le _ _
      _ = 100 := rfl
  · simp only [dbCache.List, Bool.not_true, Bool.false_eq_true, if_false]
    exact List.Pairwise.sublist (List.take_sublist _ _)
      (List.sorted_insertionSort createdDesc t)
  · simp only [dbCache.List, Bool.not_false, if_true]
    exact List.sorted_insertionSort createdDesc _
  · simp only [dbCache.List, Bool.not_false, if_true]
    exact List.perm_insertionSort createdDesc _
  · simp [memCache.List]
  · simp [memCache.List]

/-- Mapping a function that fixes every element of a list is the identity. -/
theorem listMapFixed {α : Type} {l : List α} {f : α → α}
    (h : ∀ a ∈ l, f a = a) : l.map f = l := by
  induction l with
  | nil => rfl
  | cons x xs ih =>
      simp only [List.map_cons, h x (List.mem_cons_self x xs),
        ih (fun a ha => h a (List.mem_cons_of_mem x ha))]

/-! ## C4 — Save as an upsert keyed by GUID -/

/-- Claim C4 counterexample: two `memCache.Save` calls with the same GUID
but different item descriptions (and different titles/summaries).  The
stored record's description is the second call's "d2", not the first
insert's "d1": the in-memory `Save` rebuilds the whole record from the
latest call instead of preserving the first-seen fields. -/
theorem C4_counterexample :
    (memCache.Fetch
        (memCache.Save
          (memCache.Save []
            { title := "t", description := "d1", guid := "g", link := "",
              links := [], author := none, publishedParsed := none } "t1" "s1")
          { title := "t", description := "d2", guid := "g", link := "",
            links := [], author := none, publishedParsed := none } "t2" "s2")
        "g").map (fun r => r.description) = some "d2" ∧
      (memCache.Fetch
        (memCache.Save []
          { title := "t", description := "d1", guid := "g", link := "",
            links := [], author := none, publishedParsed := none } "t1" "s1")
        "g").map (fun r => r.description) = some "d1" ∧
      ("d2" : String) ≠ "d1" := by
  refine ⟨rfl, rfl, by decide⟩

/-- Claim C4 (amended): starting from caches that do not hold the GUID,
calling `Save` twice with the same GUID leaves exactly one stored record
whose title and summary are the latest values in both implementations; the
DB-backed record's other fields — link, comments, author, publish date,
description, creation timestamp and the marked-as-read flag — are the first
insert's, while the in-memory record is rebuilt entirely from the latest
call's item (its marked-as-read flag reset to false). -/
theorem C4_save_upsert (g : String) (item1 item2 : GofeedItem)
    (ti1 s1 ti2 s2 : String) (n1 n2 : Int)
    (t : List CachedItem) (m : List (String × CachedItem))
    (hg1 : item1.guid = g) (hg2 : item2.guid = g)
    (hdb : ∀ row ∈ t, row.guid ≠ g) (hmem : ∀ e ∈ m, e.1 ≠ g) :
    dbCache.Save n2 (dbCache.Save n1 t item1 ti1 s1) item2 ti2 s2 =
        t ++ [{ cachedFromItem item1 ti1 s1 with
                id := t.length + 1, createdAt := n1, updatedAt := n1,
                title := ti2, summary := s2 }] ∧
      ((dbCache.Save n2 (dbCache.Save n1 t item1 ti1 s1) item2 ti2 s2).filter
          (fun row => row.guid = g)).length = 1 ∧
      memCache.Save (memCache.Save m item1 ti1 s1) item2 ti2 s2 =
        m ++ [(g, cachedFromItem item2 ti2 s2)] ∧
      ((memCache.Save (memCache.Save m item1 ti1 s1) item2 ti2 s2).filter
          (fun e => e.1 = g)).length = 1 ∧
      memCache.Fetch (memCache.Save (memCache.Save m item1 ti1 s1) item2 ti2 s2) g =
        some (cachedFromItem item2 ti2 s2) := by
  have hanyt : t.any (fun row => row.guid = item1.guid) = false := by
    simp only [List.any_eq_false, decide_eq_true_eq]
    intro row hrow
    rw [hg1]
    exact hdb row hrow
  have hgc1 : (cachedFromItem item1 ti1 s1).guid = item1.guid := rfl
  have hdb1 :
      dbCache.Save n1 t item1 ti1 s1 =
        t ++ [{ cachedFromItem item1 ti1 s1 with
                id := t.length + 1, createdAt := n1, updatedAt := n1 }] := by
    simp [dbCache.Save, hanyt]
  have hany2 :
      (dbCache.Save n1 t item1 ti1 s1).any (fun row => row.guid = item2.guid) = true := by
    rw [hdb1]
    simp only [List.any_append, List.any_cons, List.any_nil, Bool.or_eq_true]
    right
    simp [hgc1, hg1, hg2]
  have hdb2 :
      dbCache.Save n2 (dbCache.Save n1 t item1 ti1 s1) item2 ti2 s2 =
        t ++ [{ cachedFromItem item1 ti1 s1 with
                id := t.length + 1, createdAt := n1, updatedAt := n1,
                title := ti2, summary := s2 }] := by
    rw [dbCache.Save, if_pos hany2, hdb1]
    rw [List.map_append]
    congr 1
    · apply listMapFixed
      intro row hrow
      rw [if_neg]
      rw [hg2]
      exact hdb row hrow
    · simp [hgc1, hg1, hg2]
  have hmany1 : m.any (fun e => e.1 = item1.guid) = false := by
    simp only [List.any_eq_false, decide_eq_true_eq]
    intro e he
    rw [hg1]
    exact hmem e he
  have hmem1 :
      memCache.Save m item1 ti1 s1 = m ++ [(item1.guid, cachedFromItem item1 ti1 s1)] := by
    simp [memCache.Save, mapInsert, hmany1]
  have hmany2 :
      (memCache.Save m item1 ti1 s1).any (fun e => e.1 = item2.guid) = true := by
    rw [hmem1]
    simp [hg1, hg2]
  have hmem2 :
      memCache.Save (memCache.Save m item1 ti1 s1) item2 ti2 s2 =
        m ++ [(g, cachedFromItem item2 ti2 s2)] := by
    rw [memCache.Save, mapInsert, if_pos hmany2, hmem1]
    rw [List.map_append]
    congr 1
    · apply listMapFixed
      intro e he
      rw [if_neg]
      rw [hg2]
      exact hmem e he
    · simp [hg1, hg2]
  refine ⟨hdb2, ?_, hmem2, ?_, ?_⟩
  · rw [hdb2, List.filter_append]
    have : t.filter (fun row => decide (row.guid = g)) = [] := by
      simp only [List.filter_eq_nil_iff, decide_eq_true_eq]
      exact hdb
    rw [this]
    simp [hgc1, hg1]
  · rw [hmem2, List.filter_append]
    have : m.filter (fun e => decide (e.1 = g)) = [] := by
      simp only [List.filter_eq_nil_iff, decide_eq_true_eq]
      exact hmem
    rw [this]
    simp
  · rw [hmem2, memCache.Fetch]
    rw [List.find?_append]
    have : m.find? (fun e => e.1 = g) = none := by
      simp only [List.find?_eq_none, decide_eq_true_eq]
      exact hmem
    rw [this]
    simp

/-- Witness for `C4_save_upsert` at concrete inputs. -/
theorem C4_save_upsert_witness :
    (({ title := "t", description := "d1", guid := "g", link := "",
        links := ["l1"], author := none, publishedParsed := none } : GofeedItem).guid = "g") ∧
      (memCache.Fetch
        (memCache.Save
          (memCache.Save []
            { title := "t", description := "d1", guid := "g", link := "",
              links := ["l1"], author := none, publishedParsed := none } "t1" "s1")
          { title := "t", description := "d2", guid := "g", link := "",
            links := ["l1"], author := none, publishedParsed := none } "t2" "s2") "g" =
        some (cachedFromItem
          { title := "t", description := "d2", guid := "g", link := "",
            links := ["l1"], author := none, publishedParsed := none } "t2" "s2")) := by
  refine ⟨rfl, ?_⟩
  exact (C4_save_upsert "g"
    { title := "t", description := "d1", guid := "g", link := "",
      links := ["l1"], author := none, publishedParsed := none }
    { title := "t", description := "d2", guid := "g", link := "",
      links := ["l1"], author := none, publishedParsed := none }
    "t1" "s1" "t2" "s2" 5 9 [] [] rfl rfl (by simp) (by simp)).2.2.2.2

/-! ## C1 — overload abort semantics of SummarizeAndCacheFeeds -/

/-- Claim C1: in a batch of three items spread across two sources, when the
first item summarizes successfully and the second item's generation call
signals an overloaded model, the run caches exactly the first item (with
its footered summary), attempts nothing after the second item — the third
item, in the other source, included — records just the overload error, and
returns it as a joined error value rather than aborting fatally. -/
theorem C1_overload_abort (sumOf : GofeedItem → SummarizeOut)
    (modelName now : String) (i1 i2 i3 : GofeedItem) (e : GoError)
    (h1 : (sumOf i1).err = none)
    (h2 : (sumOf i2).err = some e)
    (h3 : e.overloaded = true) :
    (Client.SummarizeAndCacheFeeds sumOf modelName now [[i1, i2], [i3]]).1.saves =
        [(i1, (sumOf i1).translatedTitle,
          summaryFooter (sumOf i1).summarizedContent modelName now)] ∧
      (Client.SummarizeAndCacheFeeds sumOf modelName now [[i1, i2], [i3]]).1.attempted =
        [i1, i2] ∧
      (Client.SummarizeAndCacheFeeds sumOf modelName now [[i1, i2], [i3]]).1.errs =
        [e.msg] ∧
      (Client.SummarizeAndCacheFeeds sumOf modelName now [[i1, i2], [i3]]).1.aborted =
        true ∧
      (Client.SummarizeAndCacheFeeds sumOf modelName now [[i1, i2], [i3]]).2 =
        some e.msg := by
  have hinter : String.intercalate "\n" [e.msg] = e.msg := rfl
  simp [Client.SummarizeAndCacheFeeds, processFeeds, processItems, saveFor,
    h1, h2, h3, hinter]

/-- Oracle for the `C1_overload_abort` witness: the item with GUID "g2"
signals an overloaded model, every other item summarizes successfully. -/
def c1Oracle : GofeedItem → SummarizeOut := fun it =>
  if it.guid = "g2" then ⟨"tt", "cc", some ⟨"the model is overloaded", true⟩⟩
  else ⟨"TT", "CC", none⟩

/-- First witness item for C1. -/
def c1Item1 : GofeedItem :=
  { title := "a", description := "da", guid := "g1", link := "la",
    links := [], author := none, publishedParsed := none }

/-- Second witness item for C1 (the overloaded one). -/
def c1Item2 : GofeedItem :=
  { title := "b", description := "db", guid := "g2", link := "lb",
    links := [], author := none, publishedParsed := none }

/-- Third witness item for C1 (never attempted). -/
def c1Item3 : GofeedItem :=
  { title := "c", description := "dc", guid := "g3", link := "lc",
    links := [], author := none, publishedParsed := none }

/-- Witness for `C1_overload_abort` at concrete inputs. -/
theorem C1_overload_abort_witness :
    (c1Oracle c1Item1).err = none ∧
      (c1Oracle c1Item2).err = some ⟨"the model is overloaded", true⟩ ∧
      (⟨"the model is overloaded", true⟩ : GoError).overloaded = true ∧
      (Client.SummarizeAndCacheFeeds c1Oracle "m" "now"
          [[c1Item1, c1Item2], [c1Item3]]).1.attempted = [c1Item1, c1Item2] ∧
      (Client.SummarizeAndCacheFeeds c1Oracle "m" "now"
          [[c1Item1, c1Item2], [c1Item3]]).2 = some "the model is overloaded" :=
  ⟨rfl, rfl, rfl,
    (C1_overload_abort c1Oracle "m" "now" c1Item1 c1Item2 c1Item3
      ⟨"the model is overloaded", true⟩ rfl rfl rfl).2.1,
    (C1_overload_abort c1Oracle "m" "now" c1Item1 c1Item2 c1Item3
      ⟨"the model is overloaded", true⟩ rfl rfl rfl).2.2.2.2⟩

/-! ## C5 — failure degradation caches marker plus description -/

/-- Every failing path of `Client.summarize` returns the shared failure
triple: the original title, the error-marker content, and the error. -/
theorem summarize_fail_eq (env : SummarizeEnv) (title : String) (e : GoError)
    (h : (Client.summarize env title).err = some e) :
    Client.summarize env title = summarizeFailOut title e := by
  unfold Client.summarize at h ⊢
  cases hyt : env.isYouTubeURL with
  | true =>
      rw [hyt] at h
      simp only [if_true] at h ⊢
      cases hr : env.ytResult with
      | ok p =>
          obtain ⟨t, s⟩ := p
          rw [hr] at h
          simp at h
      | error e2 =>
          rw [hr] at h
          have he : e2 = e := by simpa [summarizeFailOut] using h
          subst he
          rfl
  | false =>
      rw [hyt] at h
      simp only [Bool.false_eq_true, if_false] at h ⊢
      cases hf : env.fetchContent with
      | ok p =>
          obtain ⟨content, ct⟩ := p
          rw [hf] at h
          by_cases htext : isTextFormattableContent ct
          · simp only [htext, if_true] at h ⊢
            cases hg : env.genTextResult with
            | ok p2 =>
                obtain ⟨t, s⟩ := p2
                rw [hg] at h
                simp at h
            | error e2 =>
                rw [hg] at h
                have he : e2 = e := by simpa [summarizeFailOut] using h
                subst he
                rfl
          · simp only [htext, Bool.false_eq_true, if_false] at h ⊢
            by_cases hfile : isFileContent ct
            · simp only [hfile, if_true] at h ⊢
              cases hg : env.genFileResult with
              | ok p2 =>
                  obtain ⟨t, s⟩ := p2
                  rw [hg] at h
                  simp at h
              | error e2 =>
                  rw [hg] at h
                  have he : e2 = e := by simpa [summarizeFailOut] using h
                  subst he
                  rfl
            · simp only [hfile, Bool.false_eq_true, if_false] at h ⊢
              have he : (⟨"not a summarizable content type: " ++ ct, false⟩ : GoError) = e := by
                simpa [summarizeFailOut] using h
              rw [← he]
      | error e0 =>
          rw [hf] at h
          cases hu : env.urlContextResult with
          | ok s =>
              rw [hu] at h
              simp at h
          | error e2 =>
              rw [hu] at h
              have he : e2 = e := by simpa [summarizeFailOut] using h
              subst he
              rfl

/-- The saves of the inner loop are exactly the per-item save records of the
attempted items that did not fail with an overloaded model, in order. -/
theorem processItems_saves (sumOf : GofeedItem → SummarizeOut)
    (modelName now : String) (items : List GofeedItem) :
    (processItems sumOf modelName now items).saves =
      ((processItems sumOf modelName now items).attempted.filter
        (fun it => !(overloadFail sumOf it))).map (saveFor sumOf modelName now) := by
  induction items with
  | nil => rfl
  | cons it rest ih =>
      simp only [processItems]
      cases h : (sumOf it).err with
      | none =>
          dsimp only
          have hov : overloadFail sumOf it = false := by
            simp only [overloadFail, h]
          simp only [List.filter_cons, hov, Bool.not_false, if_true,
            List.map_cons, List.cons.injEq]
          exact ⟨by trivial, ih⟩
      | some e =>
          dsimp only
          by_cases ho : e.overloaded
          · have hov : overloadFail sumOf it = true := by
              simp only [overloadFail, h]
              exact ho
            simp [ho, hov]
          · have hov : overloadFail sumOf it = false := by
              simp only [overloadFail, h]
              exact Bool.eq_false_iff.mpr ho
            rw [if_neg ho]
            simp only [List.filter_cons, hov, Bool.not_false, if_true,
              List.map_cons, List.cons.injEq]
            exact ⟨by trivial, ih⟩

/-- The saves of a whole run are exactly the per-item save records of the
attempted items that did not fail with an overloaded model, in order. -/
theorem processFeeds_saves (sumOf : GofeedItem → SummarizeOut)
    (modelName now : String) (feeds : List (List GofeedItem)) :
    (processFeeds sumOf modelName now feeds).saves =
      ((processFeeds sumOf modelName now feeds).attempted.filter
        (fun it => !(overloadFail sumOf it))).map (saveFor sumOf modelName now) := by
  induction feeds with
  | nil => rfl
  | cons f fs ih =>
      by_cases hab : (processFeeds sumOf modelName now (f :: fs)).aborted = true
      all_goals by_cases hab2 : (processItems sumOf modelName now f).aborted = true
      all_goals
        simp [processFeeds, hab2, List.filter_append, List.map_append,
          processItems_saves sumOf modelName now f, ih]

/-- The per-item `summarize` oracle induced by an environment oracle. -/
def sumOfEnv (envOf : GofeedItem → SummarizeEnv) : GofeedItem → SummarizeOut :=
  fun it => Client.summarize (envOf it) it.title

/-- Claim C5: an item whose summarization is attempted and fails for a
non-overload reason is still cached — with its original title — and its
cached summary textually contains both the fixed error marker
`"Summary failed with error"` and the item's original description. -/
theorem C5_failure_degradation (envOf : GofeedItem → SummarizeEnv)
    (modelName now : String) (feeds : List (List GofeedItem))
    (item : GofeedItem) (e : GoError)
    (hfail : (Client.summarize (envOf item) item.title).err = some e)
    (hnov : e.overloaded = false)
    (hatt : item ∈
      (Client.SummarizeAndCacheFeeds (sumOfEnv envOf) modelName now feeds).1.attempted) :
    (item, item.title,
        (summaryFailedMarker ++ ": " ++ e.msg) ++ "\n\n" ++ item.description) ∈
        (Client.SummarizeAndCacheFeeds (sumOfEnv envOf) modelName now feeds).1.saves ∧
      summaryFailedMarker.data <:+:
        ((summaryFailedMarker ++ ": " ++ e.msg) ++ "\n\n" ++ item.description).data ∧
      item.description.data <:+:
        ((summaryFailedMarker ++ ": " ++ e.msg) ++ "\n\n" ++ item.description).data := by
  have heq : Client.summarize (envOf item) item.title = summarizeFailOut item.title e :=
    summarize_fail_eq _ _ _ hfail
  have hsave : saveFor (sumOfEnv envOf) modelName now item =
      (item, item.title,
        (summaryFailedMarker ++ ": " ++ e.msg) ++ "\n\n" ++ item.description) := by
    simp [saveFor, sumOfEnv, heq, summarizeFailOut]
  refine ⟨?_, ?_, ?_⟩
  · have hnof : overloadFail (sumOfEnv envOf) item = false := by
      simp [overloadFail, sumOfEnv, hfail, hnov]
    have hmem : item ∈
        ((Client.SummarizeAndCacheFeeds (sumOfEnv envOf) modelName now feeds).1.attempted.filter
          (fun it => !(overloadFail (sumOfEnv envOf) it))) := by
      refine List.mem_filter.mpr ⟨hatt, ?_⟩
      simp [hnof]
    have := List.mem_map_of_mem (saveFor (sumOfEnv envOf) modelName now) hmem
    rw [hsave] at this
    simpa [Client.SummarizeAndCacheFeeds,
      processFeeds_saves (sumOfEnv envOf) modelName now feeds] using this
  · rw [String.data_append, String.data_append, String.data_append]
    exact ((List.prefix_append _ _).trans (List.prefix_append _ _)).isInfix
  · rw [String.data_append]
    exact (List.suffix_append _ _).isInfix

/-- Environment for the `C5_failure_degradation` witness: the content fetch
fails and the URL-context generation fails with a non-overload error. -/
def c5Env : SummarizeEnv :=
  { isYouTubeURL := false
    ytResult := .error ⟨"unused", false⟩
    fetchContent := .error ⟨"fetch failed", false⟩
    genTextResult := .error ⟨"unused", false⟩
    genFileResult := .error ⟨"unused", false⟩
    urlContextResult := .error ⟨"http 404", false⟩ }

/-- Witness item for C5. -/
def c5Item : GofeedItem :=
  { title := "T", description := "original description", guid := "g5",
    link := "l5", links := [], author := none, publishedParsed := none }

/-- Witness for `C5_failure_degradation` at concrete inputs. -/
theorem C5_failure_degradation_witness :
    (Client.summarize (c5Env) c5Item.title).err = some ⟨"http 404", false⟩ ∧
      (⟨"http 404", false⟩ : GoError).overloaded = false ∧
      c5Item ∈ (Client.SummarizeAndCacheFeeds (sumOfEnv (fun _ => c5Env)) "m" "now"
        [[c5Item]]).1.attempted ∧
      ((c5Item, c5Item.title,
          (summaryFailedMarker ++ ": " ++ "http 404") ++ "\n\n" ++ c5Item.description) ∈
          (Client.SummarizeAndCacheFeeds (sumOfEnv (fun _ => c5Env)) "m" "now"
            [[c5Item]]).1.saves ∧
        summaryFailedMarker.data <:+:
          ((summaryFailedMarker ++ ": " ++ "http 404") ++ "\n\n" ++ c5Item.description).data ∧
        c5Item.description.data <:+:
          ((summaryFailedMarker ++ ": " ++ "http 404") ++ "\n\n" ++ c5Item.description).data) :=
  ⟨rfl, rfl, by decide,
    C5_failure_degradation (fun _ => c5Env) "m" "now" [[c5Item]] c5Item
      ⟨"http 404", false⟩ rfl rfl (by decide)⟩

/-! ## C8 — empty generation results and their replacement -/

/-- Environment for the C8 counterexample: a YouTube URL whose generation
call returns empty title and empty summary. -/
def c8YtEnv : SummarizeEnv :=
  { isYouTubeURL := true
    ytResult := .ok ("", "")
    fetchContent := .error ⟨"unused", false⟩
    genTextResult := .error ⟨"unused", false⟩
    genFileResult := .error ⟨"unused", false⟩
    urlContextResult := .error ⟨"unused", false⟩ }

/-- Claim C8 counterexample: on the native-video (YouTube) path a
generation that returns empty strings is passed through unchanged — the
successful return carries a blank title and a blank summary, with neither
the placeholder nor the original title substituted. -/
theorem C8_counterexample :
    Client.summarize c8YtEnv "Original Title" =
        ⟨"", "", none⟩ ∧
      ("" : String) ≠ summarizedContentEmpty ∧
      ("" : String) ≠ "Original Title" := by
  refine ⟨rfl, by decide, by decide⟩

/-- A string with positive length is not empty. -/
theorem neStringOfLengthPos {s : String} (h : ¬ s.length ≤ 0) : s ≠ "" := by
  intro hcon
  apply h
  rw [hcon]
  simp

/-- Claim C8 (amended): on the non-YouTube summarization paths — text,
file, and URL-context — a successful return never carries an empty summary
(an empty generation is replaced by the fixed placeholder) and its title is
empty only when the item's original title is empty (an empty translated
title is replaced by the original); on the native-video path, however, the
generation results are returned exactly as produced, blank or not. -/
theorem C8_empty_replacement (env : SummarizeEnv) (title : String) :
    (env.isYouTubeURL = false →
      (Client.summarize env title).err = none →
      (Client.summarize env title).summarizedContent ≠ "" ∧
        ((Client.summarize env title).translatedTitle ≠ "" ∨ title = "")) ∧
      (∀ t s, env.isYouTubeURL = true → env.ytResult = .ok (t, s) →
        Client.summarize env title = ⟨t, s, none⟩) := by
  constructor
  · intro hyt hok
    unfold Client.summarize at hok ⊢
    rw [hyt] at hok ⊢
    simp only [Bool.false_eq_true, if_false] at hok ⊢
    cases hf : env.fetchContent with
    | ok p =>
        obtain ⟨content, ct⟩ := p
        rw [hf] at hok
        by_cases htext : isTextFormattableContent ct
        · simp only [htext, if_true] at hok ⊢
          cases hg : env.genTextResult with
          | ok p2 =>
              obtain ⟨t, s⟩ := p2
              dsimp only
              constructor
              · by_cases hs : s.length ≤ 0
                · simp only [hs, if_true]
                  decide
                · simp only [hs, if_false]
                  exact neStringOfLengthPos hs
              · by_cases ht : t.length ≤ 0
                · simp only [ht, if_true]
                  rcases eq_or_ne title "" with hti | hti
                  · exact Or.inr hti
                  · exact Or.inl hti
                · simp only [ht, if_false]
                  exact Or.inl (neStringOfLengthPos ht)
          | error e2 =>
              rw [hg] at hok
              simp [summarizeFailOut] at hok
        · simp only [htext, Bool.false_eq_true, if_false] at hok ⊢
          by_cases hfile : isFileContent ct
          · simp only [hfile, if_true] at hok ⊢
            cases hg : env.genFileResult with
            | ok p2 =>
                obtain ⟨t, s⟩ := p2
                dsimp only
                constructor
                · by_cases hs : s.length ≤ 0
                  · simp only [hs, if_true]
                    decide
                  · simp only [hs, if_false]
                    exact neStringOfLengthPos hs
                · by_cases ht : t.length ≤ 0
                  · simp only [ht, if_true]
                    rcases eq_or_ne title "" with hti | hti
                    · exact Or.inr hti
                    · exact Or.inl hti
                  · simp only [ht, if_false]
                    exact Or.inl (neStringOfLengthPos ht)
            | error e2 =>
                rw [hg] at hok
                simp [summarizeFailOut] at hok
          · simp only [hfile, Bool.false_eq_true, if_false] at hok ⊢
            simp [summarizeFailOut] at hok
    | error e0 =>
        rw [hf] at hok
        cases hu : env.urlContextResult with
        | ok s =>
            dsimp only
            constructor
            · by_cases hs : s.length ≤ 0
              · simp only [hs, if_true]
                decide
              · simp only [hs, if_false]
                exact neStringOfLengthPos hs
            · rcases eq_or_ne title "" with hti | hti
              · exact Or.inr hti
              · exact Or.inl hti
        | error e2 =>
            rw [hu] at hok
            simp [summarizeFailOut] at hok
  · intro t s hyt hr
    unfold Client.summarize
    rw [hyt, hr]
    simp

/-- Environment for the `C8_empty_replacement` witness: a text/html fetch
whose generation returns empty title and summary. -/
def c8TextEnv : SummarizeEnv :=
  { isYouTubeURL := false
    ytResult := .error ⟨"unused", false⟩
    fetchContent := .ok ("<html></html>", "text/html")
    genTextResult := .ok ("", "")
    genFileResult := .error ⟨"unused", false⟩
    urlContextResult := .error ⟨"unused", false⟩ }

/-- Witness for `C8_empty_replacement` at concrete inputs: on the text path
the empty generation is replaced, on the YouTube path it is passed through. -/
theorem C8_empty_replacement_witness :
    (c8TextEnv.isYouTubeURL = false ∧
        (Client.summarize c8TextEnv "Orig").err = none ∧
        ((Client.summarize c8TextEnv "Orig").summarizedContent ≠ "" ∧
          ((Client.summarize c8TextEnv "Orig").translatedTitle ≠ "" ∨ "Orig" = ""))) ∧
      (c8YtEnv.isYouTubeURL = true ∧ c8YtEnv.ytResult = .ok ("", "") ∧
        Client.summarize c8YtEnv "Original Title" = ⟨"", "", none⟩) :=
  ⟨⟨rfl, by decide, (C8_empty_replacement c8TextEnv "Orig").1 rfl (by decide)⟩,
    ⟨rfl, rfl, (C8_empty_replacement c8YtEnv "Original Title").2 "" "" rfl rfl⟩⟩

/-! ## C9 — text formatting for prompting -/

/-- Modelled from the spec: the claim's collapsing rule — after trimming,
every run of two or more blank lines is replaced by a single blank line
(a lone blank line is left alone).  Used only to compare the claim's words
against `removeConsecutiveEmptyLines`. -/
def collapseBlankAux : Bool → List (List Char) → List (List Char)
  | _, [] => []
  | prevBlank, l :: rest =>
      if l = [] then
        if prevBlank then collapseBlankAux true rest
        else [] :: collapseBlankAux true rest
      else l :: collapseBlankAux false rest

/-- Modelled from the spec: collapse every run of blank lines to a single
blank line (the claim's rule for runs of length 2 or more; identity on a
lone blank line). -/
def collapseBlankLineRuns (ls : List (List Char)) : List (List Char) :=
  collapseBlankAux false ls

/-- Modelled from the spec: the whole formatter as the claim words it —
trim trailing spaces from each line, collapse every run of 2 or more blank
lines to one, re-join. -/
def claimFormatterSpec (input : String) : String :=
  ⟨joinNL (collapseBlankLineRuns ((splitOnNL input.data).map trimRightSpacesCh))⟩

/-- Claim C9 counterexample: on `"a\n\n\nb"` — a run of two blank lines —
the code's `removeConsecutiveEmptyLines` collapses the newline run to a
single newline, producing `"a\nb"` with no blank line left, while the
claim's collapse-to-one-blank-line rule produces `"a\n\nb"`. -/
theorem C9_counterexample :
    removeConsecutiveEmptyLines "a\n\n\nb" = "a\nb" ∧
      claimFormatterSpec "a\n\n\nb" = "a\n\nb" ∧
      ("a\nb" : String) ≠ "a\n\nb" := by
  refine ⟨by decide, by decide, by decide⟩

/-- No adjacent newline pair. -/
def noDoubleNL (a b : Char) : Prop := ¬(a = '\n' ∧ b = '\n')

/-- No space character immediately before a newline. -/
def noSpaceBeforeNL (a b : Char) : Prop := ¬(a = ' ' ∧ b = '\n')

/-- The head surviving `dropWhile (· = bad)` is not `bad`. -/
theorem head_dropWhileEq_ne (bad : Char) (l : List Char) (y : Char)
    (h : (l.dropWhile (fun d => d = bad)).head? = some y) : y ≠ bad := by
  induction l with
  | nil => simp at h
  | cons c rest ih =>
      by_cases hc : c = bad
      · rw [List.dropWhile_cons, if_pos (by simp [hc])] at h
        exact ih h
      · rw [List.dropWhile_cons, if_neg (by simp [hc])] at h
        simp only [List.head?_cons, Option.some.injEq] at h
        rw [← h]
        exact hc

/-- The head of `collapseNLAux true` is never a newline. -/
theorem auxTrue_head_ne : ∀ (cs : List Char) (y : Char),
    (collapseNLAux true cs).head? = some y → y ≠ '\n' := by
  intro cs
  induction cs with
  | nil =>
      intro y hy
      simp [collapseNLAux] at hy
  | cons c rest ih =>
      intro y hy
      by_cases hc : c = '\n'
      · subst hc
        simp only [collapseNLAux, if_pos rfl, if_true, if_pos rfl] at hy
        exact ih y hy
      · simp only [collapseNLAux, if_neg hc, List.head?_cons,
          Option.some.injEq] at hy
        rw [← hy]
        exact hc

/-- `collapseNLAux false` keeps the head character. -/
theorem auxFalse_head : ∀ (cs : List Char),
    (collapseNLAux false cs).head? = cs.head? := by
  intro cs
  cases cs with
  | nil => rfl
  | cons c rest =>
      by_cases hc : c = '\n'
      · subst hc
        simp [collapseNLAux]
      · simp [collapseNLAux, hc]

/-- The output of the newline-run collapse never has two adjacent
newlines. -/
theorem aux_chainNN : ∀ (cs : List Char) (b : Bool),
    List.Chain' noDoubleNL (collapseNLAux b cs) := by
  intro cs
  induction cs with
  | nil =>
      intro b
      simp [collapseNLAux]
  | cons c rest ih =>
      intro b
      by_cases hc : c = '\n'
      · subst hc
        cases b with
        | true =>
            simp only [collapseNLAux, if_pos rfl, if_true, if_pos rfl]
            exact ih true
        | false =>
            simp only [collapseNLAux, if_pos rfl, if_true, Bool.false_eq_true, if_false]
            rw [List.chain'_cons']
            refine ⟨?_, ih true⟩
            intro y hy
            exact fun hcon => auxTrue_head_ne rest y (Option.mem_def.mp hy) hcon.2
      · simp only [collapseNLAux, if_neg hc]
        rw [List.chain'_cons']
        refine ⟨?_, ih false⟩
        intro y _
        exact fun hcon => hc hcon.1

/-- The newline-run collapse preserves the absence of a space before a
newline. -/
theorem aux_chainSp : ∀ (cs : List Char) (b : Bool),
    List.Chain' noSpaceBeforeNL cs →
    List.Chain' noSpaceBeforeNL (collapseNLAux b cs) := by
  intro cs
  induction cs with
  | nil =>
      intro b _
      simp [collapseNLAux]
  | cons c rest ih =>
      intro b hq
      by_cases hc : c = '\n'
      · subst hc
        cases b with
        | true =>
            simp only [collapseNLAux, if_pos rfl, if_true, if_pos rfl]
            exact ih true hq.tail
        | false =>
            simp only [collapseNLAux, if_pos rfl, if_true, Bool.false_eq_true, if_false]
            rw [List.chain'_cons']
            exact ⟨fun y _ => fun hcon => absurd hcon.1 (by decide), ih true hq.tail⟩
      · simp only [collapseNLAux, if_neg hc]
        rw [List.chain'_cons']
        constructor
        · intro y hy
          rw [auxFalse_head] at hy
          exact (List.chain'_cons'.mp hq).1 y hy
        · exact ih false hq.tail

/-- The newline-run collapse preserves "does not end in a space". -/
theorem aux_last : ∀ (cs : List Char) (b : Bool),
    cs.getLast? ≠ some ' ' → (collapseNLAux b cs).getLast? ≠ some ' ' := by
  intro cs
  induction cs with
  | nil =>
      intro b _
      simp [collapseNLAux]
  | cons c rest ih =>
      intro b h
      have hrest : rest.getLast? ≠ some ' ' := by
        cases rest with
        | nil => simp
        | cons d ds => rw [List.getLast?_cons_cons] at h; exact h
      by_cases hc : c = '\n'
      · subst hc
        cases b with
        | true =>
            simp only [collapseNLAux, if_pos rfl, if_true, if_pos rfl]
            exact ih true hrest
        | false =>
            simp only [collapseNLAux, if_pos rfl, if_true, Bool.false_eq_true, if_false]
            cases hx : collapseNLAux true rest with
            | nil => simp
            | cons x xs =>
                rw [List.getLast?_cons_cons]
                have hres := ih true hrest
                rw [hx] at hres
                exact hres
      · simp only [collapseNLAux, if_neg hc]
        cases rest with
        | nil =>
            simp only [collapseNLAux]
            simpa using h
        | cons d ds =>
            have hne : collapseNLAux false (d :: ds) ≠ [] := by
              intro hcon
              have hh := auxFalse_head (d :: ds)
              rw [hcon] at hh
              simp at hh
            cases hx : collapseNLAux false (d :: ds) with
            | nil => exact absurd hx hne
            | cons x xs =>
                rw [List.getLast?_cons_cons]
                have hres := ih false hrest
                rw [hx] at hres
                exact hres

/-- A list without newlines satisfies `noSpaceBeforeNL` pairwise-adjacently. -/
theorem chainSp_of_no_nl (l : List Char) (h : '\n' ∉ l) :
    List.Chain' noSpaceBeforeNL l := by
  induction l with
  | nil => simp
  | cons c rest ih =>
      rw [List.chain'_cons']
      refine ⟨?_, ih (fun hm => h (List.mem_cons_of_mem _ hm))⟩
      intro y hy
      have hyrest : y ∈ rest := by
        cases rest with
        | nil => simp at hy
        | cons d ds =>
            simp only [List.head?_cons, Option.mem_def, Option.some.injEq] at hy
            rw [← hy]
            exact List.mem_cons_self _ _
      intro hcon
      exact h (List.mem_cons_of_mem _ (hcon.2 ▸ hyrest))

/-- `splitOnNL` never returns the empty list of lines. -/
theorem splitOnNL_ne_nil (cs : List Char) : splitOnNL cs ≠ [] := by
  induction cs with
  | nil => simp [splitOnNL]
  | cons c rest ih =>
      simp only [splitOnNL]
      by_cases hc : c = '\n'
      · simp [hc]
      · simp only [hc, if_false]
        cases hs : splitOnNL rest with
        | nil => simp
        | cons l ls => simp

/-- Lines produced by `splitOnNL` contain no newline. -/
theorem splitOnNL_no_nl : ∀ (cs : List Char), ∀ l ∈ splitOnNL cs, '\n' ∉ l := by
  intro cs
  induction cs with
  | nil =>
      intro l hl
      simp only [splitOnNL, List.mem_singleton] at hl
      subst hl
      simp
  | cons c rest ih =>
      intro l hl
      simp only [splitOnNL] at hl
      by_cases hc : c = '\n'
      · simp only [hc, if_true, List.mem_cons] at hl
        rcases hl with hl | hl
        · subst hl; simp
        · exact ih l hl
      · simp only [hc, if_false] at hl
        cases hs : splitOnNL rest with
        | nil => exact absurd hs (splitOnNL_ne_nil rest)
        | cons l0 ls =>
            rw [hs] at hl
            simp only [List.mem_cons] at hl
            rcases hl with hl | hl
            · subst hl
              intro hm
              rcases List.mem_cons.mp hm with hm | hm
              · exact hc hm.symm
              · exact ih l0 (hs ▸ List.mem_cons_self _ _) hm
            · exact ih l (hs ▸ List.mem_cons_of_mem _ hl)

/-- A trimmed line does not end in a space. -/
theorem trim_last (l : List Char) : (trimRightSpacesCh l).getLast? ≠ some ' ' := by
  unfold trimRightSpacesCh
  rw [List.getLast?_reverse]
  intro h
  exact head_dropWhileEq_ne ' ' l.reverse ' ' h rfl

/-- Trimming keeps a line newline-free. -/
theorem trim_no_nl (l : List Char) (h : '\n' ∉ l) : '\n' ∉ trimRightSpacesCh l := by
  unfold trimRightSpacesCh
  intro hm
  rw [List.mem_reverse] at hm
  exact h (List.mem_reverse.mp ((List.dropWhile_sublist _).mem hm))

/-- Joining newline-free lines that do not end in spaces yields a string
with no space before any newline. -/
theorem joinNL_chainSp : ∀ (ls : List (List Char)),
    (∀ l ∈ ls, '\n' ∉ l ∧ l.getLast? ≠ some ' ') →
    List.Chain' noSpaceBeforeNL (joinNL ls) := by
  intro ls
  induction ls with
  | nil =>
      intro _
      simp [joinNL]
  | cons l ls ih =>
      intro h
      cases ls with
      | nil =>
          exact chainSp_of_no_nl l (h l (List.mem_cons_self _ _)).1
      | cons l2 ls2 =>
          simp only [joinNL]
          rw [List.chain'_append]
          refine ⟨chainSp_of_no_nl l (h l (List.mem_cons_self _ _)).1, ?_, ?_⟩
          · rw [List.chain'_cons']
            refine ⟨fun y _ => fun hcon => absurd hcon.1 (by decide), ?_⟩
            exact ih (fun l' hl' => h l' (List.mem_cons_of_mem _ hl'))
          · intro x hx y hy
            intro hcon
            exact (h l (List.mem_cons_self _ _)).2 (by rw [← hcon.1]; exact hx)

/-- Joining lines that do not end in spaces yields a string that does not
end in a space. -/
theorem joinNL_last : ∀ (ls : List (List Char)),
    (∀ l ∈ ls, l.getLast? ≠ some ' ') → (joinNL ls).getLast? ≠ some ' ' := by
  intro ls
  induction ls with
  | nil =>
      intro _
      simp [joinNL]
  | cons l ls ih =>
      intro h
      cases ls with
      | nil => exact h l (List.mem_cons_self _ _)
      | cons l2 ls2 =>
          simp only [joinNL]
          rw [List.getLast?_append]
          have htail : ('\n' :: joinNL (l2 :: ls2)).getLast? ≠ some ' ' := by
            cases hj : joinNL (l2 :: ls2) with
            | nil => simp
            | cons x xs =>
                rw [List.getLast?_cons_cons]
                have := ih (fun l' hl' => h l' (List.mem_cons_of_mem _ hl'))
                rw [hj] at this
                exact this
          cases hx : ('\n' :: joinNL (l2 :: ls2)).getLast? with
          | none => simp at hx
          | some z =>
              rw [hx] at htail
              simpa using htail

/-- Claim C9 (amended): the text formatter trims trailing spaces from each
line and collapses every run of two or more newline characters to a single
newline — removing interior blank lines outright rather than keeping one —
and the `text/*` fetch path wraps the processed text in the fixed
`urlToTextFormat` delimiter template carrying the source URL and content
type.  Concretely: the formatted body never has two adjacent newlines,
never has a space immediately before a newline, and never ends in a
space. -/
theorem C9_text_formatting (url ct s : String) :
    fetchURLContentTextBody url ct s =
        urlToTextFormat url ct (removeConsecutiveEmptyLines s) ∧
      List.Chain' noDoubleNL (removeConsecutiveEmptyLines s).data ∧
      List.Chain' noSpaceBeforeNL (removeConsecutiveEmptyLines s).data ∧
      (removeConsecutiveEmptyLines s).data.getLast? ≠ some ' ' := by
  have hlines : ∀ l ∈ (splitOnNL s.data).map trimRightSpacesCh,
      '\n' ∉ l ∧ l.getLast? ≠ some ' ' := by
    intro l hl
    rw [List.mem_map] at hl
    obtain ⟨l0, hl0, rfl⟩ := hl
    exact ⟨trim_no_nl l0 (splitOnNL_no_nl s.data l0 hl0), trim_last l0⟩
  refine ⟨rfl, ?_, ?_, ?_⟩
  · exact aux_chainNN _ false
  · exact aux_chainSp _ false (joinNL_chainSp _ hlines)
  · exact aux_last _ false (joinNL_last _ (fun l hl => (hlines l hl).2))

/-! ## C10 — API-key redaction of listed items -/

/-- Claim C10 counterexample: with the configured key `"RED"` and a cached
summary `"RED"`, the replacement rewrites the summary to `"|REDACTED|"` —
which itself contains the occurrence `"RED"`: the returned summary is not
free of the configured key. -/
theorem C10_counterexample :
    Client.ListCachedItems [{ summary := "RED" }] ["RED"] =
        [{ summary := "|REDACTED|" }] ∧
      ("RED" : String).data <:+: ("|REDACTED|" : String).data := by
  refine ⟨by decide, by decide⟩

/-- Join a list of parts with the replacement text between them. -/
def interc (r : List Char) : List (List Char) → List Char
  | [] => []
  | [p] => p
  | p :: ps => p ++ r ++ interc r ps

/-- Joining a part onto a non-trivial tail. -/
theorem interc_cons_eq (r : List Char) (c : Char) (p : List Char)
    (ps : List (List Char)) :
    interc r ((c :: p) :: ps) = c :: interc r (p :: ps) := by
  cases ps with
  | nil => rfl
  | cons p2 ps2 => rfl

/-- An infix of `a :: t` is a prefix of it or an infix of `t`. -/
theorem infix_cons_decomp {α : Type} {l t : List α} {a : α}
    (h : l <:+: a :: t) : l <+: a :: t ∨ l <:+: t := by
  obtain ⟨u, v, huv⟩ := h
  cases u with
  | nil =>
      left
      exact ⟨v, by simpa using huv⟩
  | cons b bs =>
      right
      simp only [List.cons_append] at huv
      injection huv with hb ht
      exact ⟨bs, v, ht⟩

/-- A prefix of `p ++ r ++ t` whose characters avoid `r` entirely is a
prefix of `p`. -/
theorem pref_through {k r t : List Char} (hr : r ≠ [])
    (hdisj : ∀ c ∈ k, c ∉ r) :
    ∀ (p : List Char), k <+: p ++ r ++ t → k <+: p := by
  induction k with
  | nil =>
      intro p _
      exact List.nil_prefix
  | cons kh k2 ih =>
      intro p h
      cases p with
      | nil =>
          exfalso
          cases r with
          | nil => exact hr rfl
          | cons rh rs =>
              simp only [List.nil_append, List.cons_append] at h
              rw [List.cons_prefix_cons] at h
              exact hdisj kh (List.mem_cons_self _ _) (h.1 ▸ List.mem_cons_self _ _)
      | cons a p2 =>
          simp only [List.cons_append] at h
          rw [List.cons_prefix_cons] at h
          rw [List.cons_prefix_cons]
          exact ⟨h.1, ih (fun c hc => hdisj c (List.mem_cons_of_mem _ hc)) p2 h.2⟩

/-- An infix of `r ++ t` whose characters avoid `r` is an infix of `t`. -/
theorem infix_shift {k : List Char} (hk : k ≠ []) :
    ∀ (r t : List Char), (∀ c ∈ k, c ∉ r) → k <:+: r ++ t → k <:+: t := by
  intro r
  induction r with
  | nil =>
      intro t _ h
      simpa using h
  | cons rh rs ih =>
      intro t hdisj h
      simp only [List.cons_append] at h
      rcases infix_cons_decomp h with hp | hi
      · exfalso
        cases k with
        | nil => exact hk rfl
        | cons kh k2 =>
            rw [List.cons_prefix_cons] at hp
            exact hdisj kh (List.mem_cons_self _ _)
              (hp.1 ▸ List.mem_cons_self _ _)
      · exact ih t (fun c hc hm => hdisj c hc (List.mem_cons_of_mem _ hm)) hi

/-- An infix of `p ++ r ++ t` whose characters avoid `r` lies inside `p` or
inside `t`. -/
theorem infix_split3 {k r : List Char} (hk : k ≠ []) (hr : r ≠ [])
    (hdisj : ∀ c ∈ k, c ∉ r) :
    ∀ (p t : List Char), k <:+: p ++ r ++ t → k <:+: p ∨ k <:+: t := by
  intro p
  induction p with
  | nil =>
      intro t h
      right
      exact infix_shift hk r t hdisj (by simpa using h)
  | cons a p2 ih =>
      intro t h
      have h' : k <:+: a :: (p2 ++ r ++ t) := by
        simpa [List.cons_append] using h
      rcases infix_cons_decomp h' with hp | hi
      · left
        have hp' : k <+: (a :: p2) ++ r ++ t := by
          simpa [List.cons_append] using hp
        exact (pref_through hr hdisj (a :: p2) hp').isInfix
      · rcases ih t hi with h1 | h2
        · exact Or.inl (List.infix_cons h1)
        · exact Or.inr h2

/-- No infix `k` avoiding the characters of `r` survives in a join of
`k`-free parts. -/
theorem interc_no_occ {k r : List Char} (hk : k ≠ []) (hr : r ≠ [])
    (hdisj : ∀ c ∈ k, c ∉ r) :
    ∀ (parts : List (List Char)), (∀ q ∈ parts, ¬ k <:+: q) →
    ¬ k <:+: interc r parts := by
  intro parts
  induction parts with
  | nil =>
      intro _ h
      obtain ⟨u, v, huv⟩ := h
      cases k with
      | nil => exact hk rfl
      | cons kh k2 => simp [interc] at huv
  | cons p ps ih =>
      intro hfree h
      cases ps with
      | nil => exact hfree p (List.mem_cons_self _ _) h
      | cons p2 ps2 =>
          rcases infix_split3 hk hr hdisj p (interc r (p2 :: ps2)) h with h1 | h2
          · exact hfree p (List.mem_cons_self _ _) h1
          · exact ih (fun q hq => hfree q (List.mem_cons_of_mem _ hq)) h2

/-- Structure of `replaceAllCore`'s output: a join of parts, each part
`k`-free, the first a prefix and the rest infixes of the input. -/
theorem raCore_parts (k r : List Char) (hk : k ≠ []) :
    ∀ (fuel : Nat) (s : List Char), s.length ≤ fuel →
    ∃ p ps, replaceAllCore k r fuel s = interc r (p :: ps) ∧ p <+: s ∧
      (∀ q ∈ p :: ps, ¬ k <:+: q) ∧ (∀ q ∈ ps, q <:+: s) := by
  intro fuel
  induction fuel with
  | zero =>
      intro s hs
      have : s = [] := List.eq_nil_of_length_eq_zero (Nat.le_zero.mp hs)
      subst this
      refine ⟨[], [], rfl, List.nil_prefix, ?_, by simp⟩
      intro q hq
      simp only [List.mem_singleton] at hq
      subst hq
      intro hocc
      obtain ⟨u, v, huv⟩ := hocc
      cases k with
      | nil => exact hk rfl
      | cons kh k2 => simp at huv
  | succ n ih =>
      intro s hs
      cases s with
      | nil =>
          refine ⟨[], [], rfl, List.nil_prefix, ?_, by simp⟩
          intro q hq
          simp only [List.mem_singleton] at hq
          subst hq
          intro hocc
          obtain ⟨u, v, huv⟩ := hocc
          cases k with
          | nil => exact hk rfl
          | cons kh k2 => simp at huv
      | cons c cs =>
          simp only [List.length_cons, Nat.add_le_add_iff_right] at hs
          by_cases hm : k.isPrefixOf (c :: cs)
          · have hklen : 1 ≤ k.length := by
              cases k with
              | nil => exact absurd rfl hk
              | cons a as => simp
            have hdlen : ((c :: cs).drop k.length).length ≤ n := by
              rw [List.length_drop]
              simp only [List.length_cons]
              omega
            obtain ⟨p, ps, heq, hpre, hfree, hinf⟩ := ih _ hdlen
            have hsfx : (c :: cs).drop k.length <:+: c :: cs :=
              (List.drop_suffix _ _).isInfix
            refine ⟨[], p :: ps, ?_, List.nil_prefix, ?_, ?_⟩
            · simp only [replaceAllCore, if_pos (And.intro hm hk), heq]
              cases ps with
              | nil => rfl
              | cons q qs => rfl
            · intro q hq
              rcases List.mem_cons.mp hq with hq | hq
              · subst hq
                intro hocc
                obtain ⟨u, v, huv⟩ := hocc
                cases k with
                | nil => exact hk rfl
                | cons kh k2 => simp at huv
              · exact hfree q hq
            · intro q hq
              rcases List.mem_cons.mp hq with hq | hq
              · subst hq
                exact (hpre.isInfix).trans hsfx
              · exact (hinf q hq).trans hsfx
          · have hcond : ¬ (k.isPrefixOf (c :: cs) ∧ k ≠ []) := fun hcon => hm hcon.1
            obtain ⟨p, ps, heq, hpre, hfree, hinf⟩ := ih cs hs
            refine ⟨c :: p, ps, ?_, ?_, ?_, ?_⟩
            · simp only [replaceAllCore, if_neg hcond, heq, interc_cons_eq]
            · rw [List.cons_prefix_cons]
              exact ⟨rfl, hpre⟩
            · intro q hq
              rcases List.mem_cons.mp hq with hq | hq
              · subst hq
                intro hocc
                rcases infix_cons_decomp hocc with hp | hi
                · have : k <+: c :: cs :=
                    hp.trans (List.cons_prefix_cons.mpr ⟨rfl, hpre⟩)
                  exact hm (List.isPrefixOf_iff_prefix.mpr this)
                · exact hfree p (List.mem_cons_self _ _) hi
              · exact hfree q (List.mem_cons_of_mem _ hq)
            · intro q hq
              exact List.infix_cons (hinf q hq)

/-- `replaceAllCore` leaves no occurrence of its own pattern when the
pattern shares no character with the replacement. -/
theorem raCore_no_self {k r : List Char} (hk : k ≠ []) (hr : r ≠ [])
    (hdisj : ∀ c ∈ k, c ∉ r) (fuel : Nat) (s : List Char)
    (hlen : s.length ≤ fuel) : ¬ k <:+: replaceAllCore k r fuel s := by
  obtain ⟨p, ps, heq, -, hfree, -⟩ := raCore_parts k r hk fuel s hlen
  rw [heq]
  exact interc_no_occ hk hr hdisj _ hfree

/-- The character-list text of a replacement with a non-empty pattern. -/
theorem goReplaceAll_data (s k r : String) (hk : k.data ≠ []) :
    (goReplaceAll s k r).data =
      replaceAllCore k.data r.data s.data.length s.data := by
  simp [goReplaceAll, hk]

/-- Replacement passes with other (non-empty) patterns cannot introduce an
occurrence of a marker-disjoint string that was absent. -/
theorem redactFold_preserve (kk : String) (hkk : kk.data ≠ [])
    (hdisj : ∀ c ∈ kk.data, c ∉ redactedMarker.data) :
    ∀ (keys : List String), (∀ k2 ∈ keys, k2.data ≠ []) →
    ∀ (t : String), ¬ kk.data <:+: t.data →
    ¬ kk.data <:+:
      (keys.foldl (fun acc b => goReplaceAll acc b redactedMarker) t).data := by
  intro keys
  induction keys with
  | nil =>
      intro _ t ht
      simpa using ht
  | cons k2 rest ih =>
      intro hne t ht
      rw [List.foldl_cons]
      apply ih (fun x hx => hne x (List.mem_cons_of_mem _ hx))
      have hk2 : k2.data ≠ [] := hne k2 (List.mem_cons_self _ _)
      rw [goReplaceAll_data t k2 redactedMarker hk2]
      obtain ⟨p, ps, heq, hpre, -, hinf⟩ :=
        raCore_parts k2.data redactedMarker.data hk2 t.data.length t.data le_rfl
      rw [heq]
      apply interc_no_occ hkk (by decide) hdisj
      intro q hq
      rcases List.mem_cons.mp hq with hq | hq
      · subst hq
        intro hocc
        exact ht (hocc.trans hpre.isInfix)
      · intro hocc
        exact ht (hocc.trans (hinf q hq))

/-- After `redactText` with non-empty, marker-disjoint keys, the result
contains no occurrence of any of the keys. -/
theorem redactText_no_key :
    ∀ (keys : List String),
    (∀ kk ∈ keys, kk.data ≠ [] ∧ ∀ c ∈ kk.data, c ∉ redactedMarker.data) →
    ∀ (s : String), ∀ kk ∈ keys,
    ¬ kk.data <:+: (redactText s keys).data := by
  intro keys
  induction keys with
  | nil =>
      intro _ s kk hkk
      simp at hkk
  | cons k1 rest ih =>
      intro hcond s kk hkk
      unfold redactText
      rw [List.foldl_cons]
      have hk1 : k1.data ≠ [] := (hcond k1 (List.mem_cons_self _ _)).1
      rcases List.mem_cons.mp hkk with hkk | hkk
      · subst hkk
        apply redactFold_preserve kk (hcond kk (List.mem_cons_self _ _)).1
          (hcond kk (List.mem_cons_self _ _)).2 rest
          (fun x hx => (hcond x (List.mem_cons_of_mem _ hx)).1)
        rw [goReplaceAll_data s kk redactedMarker hk1]
        exact raCore_no_self hk1 (by decide)
          (hcond kk (List.mem_cons_self _ _)).2 _ _ le_rfl
      · have := ih (fun x hx => hcond x (List.mem_cons_of_mem _ hx))
          (goReplaceAll s k1 redactedMarker) kk hkk
        unfold redactText at this
        exact this

/-- Claim C10 (amended): every item returned by `ListCachedItems` agrees
with a stored item on every field other than the summary; an empty summary
is returned untouched, and a non-empty summary is the marker-rewrite of the
stored one — which is guaranteed to contain no occurrence of any configured
API key provided every key is non-empty and shares no character with the
marker `"|REDACTED|"` (a key overlapping the marker, such as `"RED"`, can
survive inside the inserted markers). -/
theorem C10_redaction (items : List CachedItem) (keys : List String)
    (hkeys : ∀ kk ∈ keys, kk.data ≠ [] ∧ ∀ c ∈ kk.data, c ∉ redactedMarker.data) :
    ∀ ritem ∈ Client.ListCachedItems items keys, ∃ item ∈ items,
      ritem.id = item.id ∧ ritem.createdAt = item.createdAt ∧
      ritem.updatedAt = item.updatedAt ∧ ritem.title = item.title ∧
      ritem.link = item.link ∧ ritem.comments = item.comments ∧
      ritem.guid = item.guid ∧ ritem.author = item.author ∧
      ritem.publishDate = item.publishDate ∧
      ritem.description = item.description ∧
      ritem.markedAsRead = item.markedAsRead ∧
      (item.summary.length > 0 →
        ritem.summary = redactText item.summary keys ∧
        ∀ kk ∈ keys, ¬ kk.data <:+: ritem.summary.data) ∧
      (¬ item.summary.length > 0 → ritem = item) := by
  intro ritem hr
  unfold Client.ListCachedItems redactItems at hr
  rw [List.mem_map] at hr
  obtain ⟨item, hmem, heq⟩ := hr
  refine ⟨item, hmem, ?_⟩
  by_cases hs : item.summary.length > 0
  · rw [if_pos hs] at heq
    rw [← heq]
    refine ⟨rfl, rfl, rfl, rfl, rfl, rfl, rfl, rfl, rfl, rfl, rfl, ?_, ?_⟩
    · intro _
      exact ⟨rfl, fun kk hkk => redactText_no_key keys hkeys item.summary kk hkk⟩
    · intro hns
      exact absurd hs hns
  · rw [if_neg hs] at heq
    rw [← heq]
    exact ⟨rfl, rfl, rfl, rfl, rfl, rfl, rfl, rfl, rfl, rfl, rfl,
      fun hpos => absurd hpos hs, fun _ => rfl⟩

/-- Witness item for C10. -/
def c10Item : CachedItem := { guid := "g", summary := "key xyz text" }

/-- Witness for `C10_redaction` at concrete inputs: with the single key
`"xyz"` (non-empty, marker-disjoint) the returned summary holds no
occurrence of the key. -/
theorem C10_redaction_witness :
    (∀ kk ∈ (["xyz"] : List String), kk.data ≠ [] ∧
        ∀ c ∈ kk.data, c ∉ redactedMarker.data) ∧
      ¬ ("xyz" : String).data <:+:
        ((Client.ListCachedItems [c10Item] ["xyz"]).headD {}).summary.data := by
  refine ⟨by decide, ?_⟩
  have h := C10_redaction [c10Item] ["xyz"] (by decide)
  have hm : (Client.ListCachedItems [c10Item] ["xyz"]).headD {} ∈
      Client.ListCachedItems [c10Item] ["xyz"] := by decide
  obtain ⟨item, hitem, hfields⟩ := h _ hm
  simp only [List.mem_singleton] at hitem
  subst hitem
  obtain ⟨-, -, -, -, -, -, -, -, -, -, -, hpos, -⟩ := hfields
  exact (hpos (by decide)).2 "xyz" (List.mem_cons_self _ _)
